import Mathlib

/-!
# Verification of the `facts` process-supervision subsystem

Shallow embedding of the core of the repository (`src/server_process.rs`,
`src/server.rs`, `src/error.rs`, `src/config.rs`, `src/main.rs`):

* the log-line classifier (the three anchored regexes `RE_ERROR`, `RE_STATE`,
  `RE_EVENT` of `RunningServer::new_line`), embedded via a small backtracking
  matcher faithful to leftmost-first (lazy/greedy) regex semantics;
* the lifecycle state machine `RunningServer` / `RunningServerState` and its
  single operation `new_line`;
* the supervisor control loop `server_process::run`, modelled as a fold over
  an arbitrary interleaving of command-channel and line-channel events;
* the autoupdate poll loop of the orchestrator (`Server::run_once`) and outer run
  loop (`Server::run`), modelled as folds over scripted observations.

Rust `panic!`/`unwrap`/`assert` failures are modelled as an explicit
`panicked` outcome (process abort), distinct from the typed `Result` error.
-/

namespace Facts

/-! ## Character classes

`\s` in the Rust `regex` crate (Unicode mode) is the Unicode White_Space
class; `str::split_whitespace` uses the same class.  We use one shared
predicate for both so that their interplay is modelled consistently.
`\d` is modelled as the ASCII decimal digits (the log lines at issue only
ever carry ASCII digits).  `.` matches any character except newline. -/

def wsChars : List Char :=
  ['\t', '\n', '\x0b', '\x0c', '\r', ' ', '\u0085', '\u00a0',
   '\u1680', '\u2000', '\u2001', '\u2002', '\u2003', '\u2004', '\u2005',
   '\u2006', '\u2007', '\u2008', '\u2009', '\u200a', '\u2028', '\u2029',
   '\u202f', '\u205f', '\u3000']

def isWS (c : Char) : Bool := c ∈ wsChars

def isDigit (c : Char) : Bool := '0' ≤ c && c ≤ '9'

def isDot (c : Char) : Bool := c ≠ '\n'

/-! ## A tiny anchored regex matcher

The three patterns of `new_line` use only: single-character classes,
literals, and greedy/lazy repetitions of single-character classes (the
capture groups are all `(.+?)` or `(.+)`).  The matcher below implements
exactly those constructs with PCRE-style backtracking order (greedy tries
longest first, lazy tries shortest first); for these patterns that order
coincides with the leftmost-first semantics of the Rust `regex` crate.
Matching is anchored at both ends, as all four source patterns are
(`^...$`). -/

inductive Item where
  /-- a single character of a class (`\s`, `\d`) -/
  | cls (p : Char → Bool)
  /-- a literal string (`Error`, `from(`, ...) -/
  | lit (t : List Char)
  /-- greedy zero-or-more of a class (`\s*`) -/
  | starG (p : Char → Bool)
  /-- greedy one-or-more of a class (`\d+`, `\s+`) -/
  | plusG (p : Char → Bool)
  /-- lazy one-or-more of a class (`.+?`) -/
  | plusL (p : Char → Bool)
  /-- exactly n of a class (`\d{2}`) -/
  | repExact (p : Char → Bool) (n : Nat)
  /-- greedy n-or-more of a class (`\d{4,}`) -/
  | repAtLeastG (p : Char → Bool) (n : Nat)
  /-- capturing lazy one-or-more (`(?P<x>.+?)`) -/
  | capPlusL (p : Char → Bool)
  /-- capturing greedy one-or-more (`(?P<x>.+)`) -/
  | capPlusG (p : Char → Bool)

/-- Captures produced by a match, in group order. -/
abbrev Caps := List (List Char)

/-- Strip a literal prefix, returning the remainder. -/
def litSplit : List Char → List Char → Option (List Char)
  | [], cs => some cs
  | _ :: _, [] => none
  | t :: ts, c :: cs => if c = t then litSplit ts cs else none

/-- Strip exactly `n` characters of class `p`, returning the remainder. -/
def repSplit (p : Char → Bool) : Nat → List Char → Option (List Char)
  | 0, cs => some cs
  | _ + 1, [] => none
  | n + 1, c :: cs => if p c then repSplit p n cs else none

/-- Lazy scan: consume one more `p`-character, then try the continuation;
on failure keep consuming.  (Shortest-first backtracking order.) -/
def scanLazy (p : Char → Bool) (k : List Char → Option Caps) :
    List Char → Option Caps
  | [] => none
  | c :: cs => if p c then (k cs <|> scanLazy p k cs) else none

/-- Greedy scan: consume as many `p`-characters as possible, backtracking to
shorter runs (including the empty run) if the continuation fails. -/
def scanGreedy (p : Char → Bool) (k : List Char → Option Caps) :
    List Char → Option Caps
  | [] => k []
  | c :: cs =>
    if p c then (scanGreedy p k cs <|> k (c :: cs)) else k (c :: cs)

/-- Capturing lazy scan; `acc` holds the consumed characters in reverse. -/
def scanLazyCap (p : Char → Bool) (k : List Char → Option Caps)
    (acc : List Char) : List Char → Option Caps
  | [] => none
  | c :: cs =>
    if p c then
      ((k cs).map (fun caps => (c :: acc).reverse :: caps))
        <|> scanLazyCap p k (c :: acc) cs
    else none

/-- Capturing greedy scan; `acc` holds the consumed characters in reverse. -/
def scanGreedyCap (p : Char → Bool) (k : List Char → Option Caps)
    (acc : List Char) : List Char → Option Caps
  | [] => (k []).map (fun caps => acc.reverse :: caps)
  | c :: cs =>
    if p c then
      scanGreedyCap p k (c :: acc) cs
        <|> (k (c :: cs)).map (fun caps => acc.reverse :: caps)
    else (k (c :: cs)).map (fun caps => acc.reverse :: caps)

/-- Anchored matcher: `mat items cs` matches the whole of `cs` against the
item sequence, returning the captures on success. -/
def mat : List Item → List Char → Option Caps
  | [], cs => if cs = [] then some [] else none
  | .cls p :: rest, cs =>
    match cs with
    | c :: cs' => if p c then mat rest cs' else none
    | [] => none
  | .lit t :: rest, cs =>
    match litSplit t cs with
    | some cs' => mat rest cs'
    | none => none
  | .starG p :: rest, cs => scanGreedy p (mat rest) cs
  | .plusG p :: rest, cs =>
    match cs with
    | c :: cs' => if p c then scanGreedy p (mat rest) cs' else none
    | [] => none
  | .plusL p :: rest, cs => scanLazy p (mat rest) cs
  | .repExact p n :: rest, cs =>
    match repSplit p n cs with
    | some cs' => mat rest cs'
    | none => none
  | .repAtLeastG p n :: rest, cs =>
    match repSplit p n cs with
    | some cs' => scanGreedy p (mat rest) cs'
    | none => none
  | .capPlusL p :: rest, cs => scanLazyCap p (mat rest) [] cs
  | .capPlusG p :: rest, cs =>
    match cs with
    | c :: cs' => if p c then scanGreedyCap p (mat rest) [c] cs' else none
    | [] => none

/-! ## The four patterns of `server_process.rs`

`RE_ERROR  = ^\s*\d+\.\d+\sError\s.+?\s+(?P<msg>.+?)\s*$`
`RE_STATE  = ^\s*\d+\.\d+\sInfo.+?changing\sstate\sfrom\(.+?\)\sto\((?P<newstate>.+?)\)$`
`RE_EVENT  = ^\d{4,}+-\d{2}-\d{2}\s\d{2}:\d{2}:\d{2}\s\[(?P<event>.+?)\]\s(?P<msg>.+)$`
`RE_GOODBYE = ^\s*\d+\.\d+\sGoodbye$`

(`\d{4,}+` is modelled as `\d{4,}`: interpreting the extra `+` as a second
repetition does not change the matched language.)

The shared timestamp prefix `\s*\d+\.\d+\s` is factored out as `stampItems`. -/

def stampItems : List Item :=
  [.starG isWS, .plusG isDigit, .lit ['.'], .plusG isDigit, .cls isWS]

def reError : List Item :=
  stampItems ++
    [.lit "Error".data, .cls isWS, .plusL isDot, .plusG isWS,
     .capPlusL isDot, .starG isWS]

def reState : List Item :=
  stampItems ++
    [.lit "Info".data, .plusL isDot, .lit "changing".data, .cls isWS,
     .lit "state".data, .cls isWS, .lit "from(".data, .plusL isDot,
     .lit ")".data, .cls isWS, .lit "to(".data, .capPlusL isDot,
     .lit ")".data]

def reEvent : List Item :=
  [.repAtLeastG isDigit 4, .lit "-".data, .repExact isDigit 2,
   .lit "-".data, .repExact isDigit 2, .cls isWS, .repExact isDigit 2,
   .lit ":".data, .repExact isDigit 2, .lit ":".data, .repExact isDigit 2,
   .cls isWS, .lit "[".data, .capPlusL isDot, .lit "]".data, .cls isWS,
   .capPlusG isDot]

def reGoodbye : List Item :=
  stampItems ++ [.lit "Goodbye".data]

/-- The `msg` capture of `RE_ERROR`, if the line matches. -/
def matchErrorMsg (cs : List Char) : Option (List Char) :=
  (mat reError cs).map (fun caps => caps.headD [])

/-- The `newstate` capture of `RE_STATE`, if the line matches. -/
def matchNewState (cs : List Char) : Option (List Char) :=
  (mat reState cs).map (fun caps => caps.headD [])

/-- The `event` and `msg` captures of `RE_EVENT`, if the line matches. -/
def matchEvent (cs : List Char) : Option (List Char × List Char) :=
  (mat reEvent cs).map (fun caps => (caps.headD [], caps.getD 1 []))

/-! ## Lifecycle state machine (`server_process.rs`) -/

/-- The twelve lifecycle states (`enum RunningServerState`). -/
inductive RunningServerState where
  | Start
  | Ready
  | PreparedToHostGame
  | CreatingGame
  | InitializationFailed
  | InGame
  | InGameSavingMap
  | DisconnectingScheduled
  | Disconnecting
  | Disconnected
  | Closed
  | Failed
  deriving DecidableEq, Repr

/-- `impl Default for RunningServerState`. -/
def RunningServerState.default : RunningServerState := .Start

/-- The strum-derived `RunningServerState::from_str`: exact variant-name
lookup, `none` for anything unrecognized. -/
def RunningServerState.from_str (s : List Char) : Option RunningServerState :=
  if s = "Start".data then some .Start
  else if s = "Ready".data then some .Ready
  else if s = "PreparedToHostGame".data then some .PreparedToHostGame
  else if s = "CreatingGame".data then some .CreatingGame
  else if s = "InitializationFailed".data then some .InitializationFailed
  else if s = "InGame".data then some .InGame
  else if s = "InGameSavingMap".data then some .InGameSavingMap
  else if s = "DisconnectingScheduled".data then some .DisconnectingScheduled
  else if s = "Disconnecting".data then some .Disconnecting
  else if s = "Disconnected".data then some .Disconnected
  else if s = "Closed".data then some .Closed
  else if s = "Failed".data then some .Failed
  else none

/-- `enum ServerError` (`error.rs`): the only typed server error. -/
inductive ServerError where
  | PortUnavailable
  deriving DecidableEq, Repr

/-- The snapshot owned by the control loop (`struct RunningServer`).
`players_online` is a `HashSet<String>`, modelled as a `Finset`. -/
structure RunningServer where
  state : RunningServerState
  players_online : Finset (List Char)
  deriving DecidableEq

/-- `RunningServer::new()`: default state (`Start`), empty player set. -/
def RunningServer.new : RunningServer := ⟨.Start, ∅⟩

/-- `str::split_whitespace().next()`: the first maximal run of
non-whitespace characters, if any. -/
def firstToken (m : List Char) : Option (List Char) :=
  match m.dropWhile isWS with
  | [] => none
  | c :: cs => some ((c :: cs).takeWhile (fun c => !isWS c))

/-- The distinct ways `new_line` can abort the process (`panic!` /
`.unwrap()` in the source), as opposed to returning a typed error. -/
inductive PanicReason where
  /-- `panic!("Unknown Factorio server error: ...")` -/
  | unknownError (msg : List Char)
  /-- `panic!("Unknown state ...")` -/
  | unknownState (name : List Char)
  /-- `.next().unwrap()` on a token iterator that produced nothing -/
  | noToken
  deriving DecidableEq, Repr

/-- Outcome of `RunningServer::new_line(&mut self, line)`.  `ok` and `err`
carry the post-state of `self` (`err` leaves it untouched: the error branch
returns before any mutation); `panicked` models process abort. -/
inductive LineOutcome where
  | ok (post : RunningServer)
  | err (e : ServerError) (post : RunningServer)
  | panicked (r : PanicReason)
  deriving DecidableEq

/-- The recognized fatal error message. -/
def hostAddrInUse : List Char :=
  "MultiplayerManager failed: Host address is already in use.".data

/-- `RunningServer::new_line`: classify one log line and update the
snapshot.  Branch order follows the source: `RE_ERROR`, then `RE_STATE`, then
`RE_EVENT`, else ignore. -/
def RunningServer.new_line (s : RunningServer) (line : List Char) :
    LineOutcome :=
  match matchErrorMsg line with
  | some msg =>
    if msg = hostAddrInUse then .err .PortUnavailable s
    else .panicked (.unknownError msg)
  | none =>
  match matchNewState line with
  | some newstate =>
    match RunningServerState.from_str newstate with
    | some st => .ok { s with state := st }
    | none => .panicked (.unknownState newstate)
  | none =>
  match matchEvent line with
  | some (event, msg) =>
    if event = "JOIN".data then
      match firstToken msg with
      | some name => .ok { s with players_online := insert name s.players_online }
      | none => .panicked .noToken
    else if event = "LEAVE".data then
      match firstToken msg with
      | some name => .ok { s with players_online := s.players_online.erase name }
      | none => .panicked .noToken
    else .ok s
  | none => .ok s

/-! ## Control messages (`server_process::message`) -/

inductive ToServer where
  | Shutdown
  | GetState
  deriving DecidableEq, Repr

inductive FromServer where
  | StartupComplete
  | State (s : RunningServer)
  deriving DecidableEq

/-! ## The supervisor control loop (`server_process::run`)

The loop multiplexes (via `select!`) between the command channel from the
orchestrator and the line channel of the stdout reader.  We model one supervised run
as a fold over an arbitrary interleaving of the two kinds of events — the
choice the scheduler makes of which channel fires is exactly the choice of the
event list.  Sending `SIGINT` to the child (the `Shutdown` arm) is a side
effect on the child process and is not part of the loop state.  After the
loop exits, the source drains the remaining buffered lines *without
processing them* and waits for the child; in the model, events remaining
after the loop exits are simply never applied. -/

/-- One ready channel event: a command from the orchestrator, or an item
from the stdout reader (`none` is the end-of-stream marker of the reader). -/
inductive Event where
  | cmd (m : ToServer)
  | line (l : Option (List Char))

/-- Mutable state of the control loop: the snapshot plus the
`startup_complete` flag. -/
structure LoopState where
  st : RunningServer
  startup_complete : Bool
  deriving DecidableEq

/-- How one loop iteration ended. -/
inductive StepRes where
  | cont (ls : LoopState)
  | brk (ls : LoopState)
  | fault (e : ServerError)
  | panicked (r : PanicReason)
  deriving DecidableEq

/-- The two checks run at the bottom of each non-breaking iteration:
emit `StartupComplete` on the first observation of `InGame`, then exit the
loop if the state is `Closed`. -/
def loopChecks (ls : LoopState) (outs : List FromServer) :
    List FromServer × StepRes :=
  let (ls, outs) :=
    if !ls.startup_complete && ls.st.state = RunningServerState.InGame then
      ({ ls with startup_complete := true }, outs ++ [.StartupComplete])
    else (ls, outs)
  if ls.st.state = RunningServerState.Closed then (outs, .brk ls)
  else (outs, .cont ls)

/-- One iteration of the `select!` body of the control loop, given the event the
scheduler delivered.  Returns the messages sent to the orchestrator during
the iteration and how the iteration ended. -/
def step (ls : LoopState) (e : Event) : List FromServer × StepRes :=
  match e with
  | .cmd .Shutdown => ([], .brk ls)
  | .cmd .GetState => loopChecks ls [.State ls.st]
  | .line none => ([], .brk ls)
  | .line (some l) =>
    match ls.st.new_line l with
    | .ok s' => loopChecks { ls with st := s' } []
    | .err e _ => ([], .fault e)
    | .panicked r => ([], .panicked r)

/-- How a whole run of the loop ended. -/
inductive RunResult where
  | done (final : LoopState)
  | fault (e : ServerError)
  | panicked (r : PanicReason)
  /-- the event list was exhausted while the loop was still waiting -/
  | ranOut (final : LoopState)
  deriving DecidableEq

def RunResult.isRanOut : RunResult → Bool
  | .ranOut _ => true
  | _ => false

/-- The control loop of `server_process::run`, folded over a scheduled
event sequence: all messages sent to the orchestrator, and how the loop
ended.  Events after a loop exit are not applied (the source merely drains
them). -/
def runLoop (ls : LoopState) : List Event → List FromServer × RunResult
  | [] => ([], .ranOut ls)
  | e :: es =>
    match step ls e with
    | (outs, .cont ls') =>
      let (outs', r) := runLoop ls' es
      (outs ++ outs', r)
    | (outs, .brk ls') => (outs, .done ls')
    | (outs, .fault err) => (outs, .fault err)
    | (outs, .panicked r) => (outs, .panicked r)

/-- Initial loop state of `server_process::run`: fresh snapshot,
`startup_complete = false`. -/
def initLoop : LoopState := ⟨RunningServer.new, false⟩

/-- Is an outbound message the `StartupComplete` notification? -/
def isSC : FromServer → Bool
  | .StartupComplete => true
  | .State _ => false

/-! ## Orchestrator: autoupdate policy and poll loop (`server.rs`, `config.rs`)

`Server::run_once` spawns the control loop, waits for `StartupComplete`,
and then — when the policy is "live" — repeatedly: sleeps the configured
interval in 50 ms increments, checking the process-wide `SIGINT` flag at
each increment, and at the end of a full interval calls
`update_available()`.  We model each trip around the outer loop by one
`PollObs` observation: whether the interrupt flag was seen during the
sleep, what `update_available()` returned, and the snapshot the control
loop would reply to `GetState` with.  Version values are abstract (`V`). -/

/-- `enum AutoUpdate` (`config.rs`). -/
inductive AutoUpdate where
  | Forced
  | Enabled
  | Startup
  | Disabled
  deriving DecidableEq, Repr

/-- `AutoUpdate::live`: policies that poll for updates during a run. -/
def AutoUpdate.live : AutoUpdate → Bool
  | .Forced => true
  | .Enabled => true
  | .Startup => false
  | .Disabled => false

/-- What the orchestrator observes in one trip around the poll loop. -/
structure PollObs (V : Type) where
  /-- `SIGINT` flag observed set at some 50 ms increment of the sleep -/
  sigint : Bool
  /-- result of `update_available()` at the end of the interval -/
  update : Option V
  /-- snapshot the control loop replies with if `GetState` is sent -/
  snapshot : RunningServer

/-- How the poll loop exited. -/
inductive PollExit where
  | interrupted
  | restartDecided
  /-- observation script exhausted while the loop was still polling -/
  | ranOut
  /-- `assert_eq!(autoupdate, Enabled)` failed (non-live policy inside
  the loop; unreachable from `run_once`) -/
  | panicked
  deriving DecidableEq, Repr

/-- The outer poll loop of `Server::run_once`: the commands sent to the
control loop, the pending update recorded (`result`), and how the loop
exited. -/
def pollLoop {V : Type} (policy : AutoUpdate) :
    List (PollObs V) → List ToServer × Option V × PollExit
  | [] => ([], none, .ranOut)
  | obs :: rest =>
    if obs.sigint then ([], none, .interrupted)
    else
      match obs.update with
      | none => pollLoop policy rest
      | some v =>
        match policy with
        | .Forced => ([.Shutdown], some v, .restartDecided)
        | .Enabled =>
          if obs.snapshot.players_online = ∅ then
            ([.GetState, .Shutdown], some v, .restartDecided)
          else
            let (sends, pending, ex) := pollLoop policy rest
            (.GetState :: sends, pending, ex)
        | _ => ([], none, .panicked)

/-- `Server::run_once` after startup: run the poll loop when the policy is
live (skip it otherwise), then join the control loop and surface any fault
it returned (`handle.join()?`); on success return the pending update.
`loopResult` is the `Result` of the control loop observed at the join.  Returns
the commands sent and the `Result` of the function. -/
def run_once {V : Type} (policy : AutoUpdate) (obs : List (PollObs V))
    (loopResult : Option ServerError) :
    List ToServer × Except ServerError (Option V) :=
  let sp :=
    if policy.live then
      ((pollLoop policy obs).1, (pollLoop policy obs).2.1)
    else ([], none)
  match loopResult with
  | some e => (sp.1, .error e)
  | none => (sp.1, .ok sp.2)

/-- How the `while let` loop of `Server::run` ended. -/
inductive RunEnd where
  /-- a run completed with no pending update: plain shutdown -/
  | completed
  /-- a `run_once` surfaced a fault -/
  | failed (e : ServerError)
  /-- the script ended while the loop would have started another run -/
  | scriptEnded
  deriving DecidableEq, Repr

/-- The `while let Some(resolved) = self.run_once()?` loop of
`Server::run`, with each successive `run_once` call scripted by its poll
observations and joined control-loop result.  Returns the versions updated
to (in order), how the loop ended, and the number of runs performed. -/
def server_run {V : Type} (policy : AutoUpdate) :
    List (List (PollObs V) × Option ServerError) →
    List V × RunEnd × Nat
  | [] => ([], .scriptEnded, 0)
  | (obs, lr) :: rest =>
    match (run_once policy obs lr).2 with
    | .error e => ([], .failed e, 1)
    | .ok none => ([], .completed, 1)
    | .ok (some v) =>
      let (us, e, n) := server_run policy rest
      (v :: us, e, n + 1)

/-- Deterministic skeleton of the shared prefix `\s*\d+\.\d+\s`: because
whitespace, digits, the dot and the following letter are pairwise
incompatible, any successful decomposition agrees with this function. -/
def afterStamp (cs : List Char) : Option (List Char) :=
  let r1 := cs.dropWhile isWS
  let d1 := r1.takeWhile isDigit
  let r2 := r1.dropWhile isDigit
  if d1 = [] then none
  else
    match r2 with
    | '.' :: r3 =>
      let d2 := r3.takeWhile isDigit
      let r4 := r3.dropWhile isDigit
      if d2 = [] then none
      else
        match r4 with
        | c :: r5 => if isWS c then some r5 else none
        | [] => none
    | _ => none

/-- Predicate mirroring `runLoop`: does the bottom-of-loop
check of some iteration observe the state `InGame`?  (The check runs only in iterations that
neither break early nor fault.) -/
def observesInGame : LoopState → List Event → Bool
  | _, [] => false
  | ls, e :: es =>
    match step ls e with
    | (_, .cont ls') =>
      if ls'.st.state = RunningServerState.InGame then true
      else observesInGame ls' es
    | _ => false

/-! ## Concrete log lines used by witnesses and counterexamples -/

def stateLineReady : List Char :=
  "0.1 Info x changing state from(Start) to(Ready)".data

def stateLineClosed : List Char :=
  "0.1 Info x changing state from(Ready) to(Closed)".data

def errorLine : List Char :=
  "0.1 Error x MultiplayerManager failed: Host address is already in use.".data

def joinLineAlice : List Char := "2020-01-01 00:00:00 [JOIN] Alice".data

def leaveLineAlice : List Char := "2020-01-01 00:00:00 [LEAVE] Alice".data

/-- A JOIN event line whose message part is a single space (the line ends
in two spaces): it matches `RE_EVENT` with a whitespace-only `msg`. -/
def wsJoinLine : List Char := "2020-01-01 00:00:00 [JOIN]  ".data

def stateLineInGame : List Char :=
  "0.2 Info x changing state from(CreatingGame) to(InGame)".data

def stateLineSavingMap : List Char :=
  "0.3 Info x changing state from(InGame) to(InGameSavingMap)".data

def stateLineInGameAgain : List Char :=
  "0.4 Info x changing state from(InGameSavingMap) to(InGame)".data

/-! ## Matcher inversion lemmas

Soundness of the scans: a successful match decomposes the input.  These are
the only facts about the matcher the branch-disjointness arguments need. -/

theorem litSplit_eq_some {t cs b : List Char} (h : litSplit t cs = some b) :
    cs = t ++ b := by
  induction t generalizing cs with
  | nil => simpa [litSplit] using h
  | cons x ts ih =>
    cases cs with
    | nil => simp [litSplit] at h
    | cons c cs' =>
      by_cases hc : c = x
      · subst hc
        simpa using ih (by simpa [litSplit] using h)
      · simp [litSplit, hc] at h

theorem repSplit_eq_some {p : Char → Bool} {n : Nat} {cs b : List Char}
    (h : repSplit p n cs = some b) :
    ∃ a, cs = a ++ b ∧ a.length = n ∧ a.all p := by
  induction n generalizing cs with
  | zero => exact ⟨[], by simpa [repSplit] using h, rfl, rfl⟩
  | succ n ih =>
    cases cs with
    | nil => simp [repSplit] at h
    | cons c cs' =>
      by_cases hc : p c
      · obtain ⟨a, rfl, hlen, hall⟩ := ih (by simpa [repSplit, hc] using h)
        exact ⟨c :: a, rfl, by simp [hlen], by simp [hc, hall]⟩
      · simp [repSplit, hc] at h

theorem scanLazy_eq_some {p : Char → Bool} {k : List Char → Option Caps}
    {cs : List Char} {r : Caps} (h : scanLazy p k cs = some r) :
    ∃ a b, cs = a ++ b ∧ a ≠ [] ∧ a.all p ∧ k b = some r := by
  induction cs with
  | nil => simp [scanLazy] at h
  | cons c cs ih =>
    by_cases hc : p c
    · rw [scanLazy, if_pos hc, Option.orElse_eq_some] at h
      rcases h with h | ⟨-, h⟩
      · exact ⟨[c], cs, rfl, by simp, by simp [hc], h⟩
      · obtain ⟨a, b, rfl, -, hall, hk⟩ := ih h
        exact ⟨c :: a, b, rfl, by simp, by simp [hc, hall], hk⟩
    · rw [scanLazy, if_neg hc] at h
      exact absurd h (by simp)

theorem scanGreedy_eq_some {p : Char → Bool} {k : List Char → Option Caps}
    {cs : List Char} {r : Caps} (h : scanGreedy p k cs = some r) :
    ∃ a b, cs = a ++ b ∧ a.all p ∧ k b = some r := by
  induction cs with
  | nil => exact ⟨[], [], rfl, rfl, by simpa [scanGreedy] using h⟩
  | cons c cs ih =>
    by_cases hc : p c
    · rw [scanGreedy, if_pos hc, Option.orElse_eq_some] at h
      rcases h with h | ⟨-, h⟩
      · obtain ⟨a, b, rfl, hall, hk⟩ := ih h
        exact ⟨c :: a, b, rfl, by simp [hc, hall], hk⟩
      · exact ⟨[], c :: cs, rfl, rfl, h⟩
    · rw [scanGreedy, if_neg hc] at h
      exact ⟨[], c :: cs, rfl, rfl, h⟩

theorem scanLazyCap_eq_some {p : Char → Bool} {k : List Char → Option Caps}
    {cs : List Char} {r : Caps} :
    ∀ {acc : List Char}, scanLazyCap p k acc cs = some r →
      ∃ a b caps, cs = a ++ b ∧ a ≠ [] ∧ a.all p ∧ k b = some caps ∧
        r = (acc.reverse ++ a) :: caps := by
  induction cs with
  | nil => intro acc h; simp [scanLazyCap] at h
  | cons c cs ih =>
    intro acc h
    by_cases hc : p c
    · rw [scanLazyCap, if_pos hc, Option.orElse_eq_some] at h
      rcases h with h | ⟨-, h⟩
      · obtain ⟨caps, hk, hcast⟩ := Option.map_eq_some'.mp h
        exact ⟨[c], cs, caps, rfl, by simp, by simp [hc], hk, by
          simp [← hcast]⟩
      · obtain ⟨a, b, caps, rfl, -, hall, hk, hcaps⟩ := ih h
        refine ⟨c :: a, b, caps, rfl, by simp, by simp [hc, hall], hk, ?_⟩
        simpa using hcaps
    · rw [scanLazyCap, if_neg hc] at h
      exact absurd h (by simp)

theorem scanGreedyCap_eq_some {p : Char → Bool} {k : List Char → Option Caps}
    {cs : List Char} {r : Caps} :
    ∀ {acc : List Char}, scanGreedyCap p k acc cs = some r →
      ∃ a b caps, cs = a ++ b ∧ a.all p ∧ k b = some caps ∧
        r = (acc.reverse ++ a) :: caps := by
  induction cs with
  | nil =>
    intro acc h
    obtain ⟨caps, hk, hcast⟩ := Option.map_eq_some'.mp (by simpa [scanGreedyCap] using h)
    exact ⟨[], [], caps, rfl, rfl, hk, by simp [← hcast]⟩
  | cons c cs ih =>
    intro acc h
    by_cases hc : p c
    · rw [scanGreedyCap, if_pos hc, Option.orElse_eq_some] at h
      rcases h with h | ⟨-, h⟩
      · obtain ⟨a, b, caps, rfl, hall, hk, hcaps⟩ := ih h
        refine ⟨c :: a, b, caps, rfl, by simp [hc, hall], hk, ?_⟩
        simpa using hcaps
      · obtain ⟨caps, hk, hcast⟩ := Option.map_eq_some'.mp h
        exact ⟨[], c :: cs, caps, rfl, rfl, hk, by simp [← hcast]⟩
    · rw [scanGreedyCap, if_neg hc] at h
      obtain ⟨caps, hk, hcast⟩ := Option.map_eq_some'.mp h
      exact ⟨[], c :: cs, caps, rfl, rfl, hk, by simp [← hcast]⟩

/-! ## Forced-prefix reasoning

All three patterns begin with runs over character classes whose boundaries
are pairwise disjoint, so the decomposition of a successful match is forced
to agree with `takeWhile`/`dropWhile`.  This is what makes the patterns
mutually exclusive. -/

theorem dropWhile_all_append (p : Char → Bool) (a : List Char) (c : Char)
    (t : List Char) (ha : a.all p) (hc : p c = false) :
    (a ++ c :: t).dropWhile p = c :: t := by
  induction a with
  | nil => simp [List.dropWhile_cons, hc]
  | cons x a ih =>
    simp only [List.all_cons, Bool.and_eq_true] at ha
    simp [List.dropWhile_cons, ha.1, ih ha.2]

theorem takeWhile_all_append (p : Char → Bool) (a : List Char) (c : Char)
    (t : List Char) (ha : a.all p) (hc : p c = false) :
    (a ++ c :: t).takeWhile p = a := by
  induction a with
  | nil => simp [List.takeWhile_cons, hc]
  | cons x a ih =>
    simp only [List.all_cons, Bool.and_eq_true] at ha
    simp [List.takeWhile_cons, ha.1, ih ha.2]

theorem ws_not_digit {c : Char} (h : isWS c = true) : isDigit c = false := by
  have : wsChars.all (fun c => !isDigit c) = true := by decide
  rw [List.all_eq_true] at this
  have hm : c ∈ wsChars := of_decide_eq_true h
  simpa using this c hm

theorem digit_not_ws {c : Char} (h : isDigit c = true) : isWS c = false := by
  by_contra hws
  rw [Bool.not_eq_false] at hws
  rw [ws_not_digit hws] at h
  exact Bool.false_ne_true h

theorem mat_lit_inv {t : List Char} {rest : List Item} {b : List Char}
    {r : Caps} (h : mat (.lit t :: rest) b = some r) :
    ∃ b2, b = t ++ b2 ∧ mat rest b2 = some r := by
  simp only [mat] at h
  split at h
  · rename_i b2 hls
    exact ⟨b2, litSplit_eq_some hls, h⟩
  · exact absurd h (by simp)

theorem mat_cls_inv {p : Char → Bool} {rest : List Item} {b : List Char}
    {r : Caps} (h : mat (.cls p :: rest) b = some r) :
    ∃ c b2, b = c :: b2 ∧ p c ∧ mat rest b2 = some r := by
  cases b with
  | nil => simp [mat] at h
  | cons c b2 =>
    simp only [mat] at h
    by_cases hc : p c
    · rw [if_pos hc] at h
      exact ⟨c, b2, rfl, hc, h⟩
    · rw [if_neg hc] at h
      exact absurd h (by simp)

theorem mat_plusG_inv {p : Char → Bool} {rest : List Item} {b : List Char}
    {r : Caps} (h : mat (.plusG p :: rest) b = some r) :
    ∃ c a b2, b = (c :: a) ++ b2 ∧ (c :: a).all p ∧ mat rest b2 = some r := by
  cases b with
  | nil => simp [mat] at h
  | cons c b' =>
    simp only [mat] at h
    by_cases hc : p c
    · rw [if_pos hc] at h
      obtain ⟨a, b2, rfl, hall, hk⟩ := scanGreedy_eq_some h
      exact ⟨c, a, b2, rfl, by simp [hc, hall], hk⟩
    · rw [if_neg hc] at h
      exact absurd h (by simp)

theorem mat_repAtLeastG_inv {p : Char → Bool} {n : Nat} {rest : List Item}
    {cs : List Char} {r : Caps} (h : mat (.repAtLeastG p n :: rest) cs = some r) :
    ∃ d b, cs = d ++ b ∧ d.length ≥ n ∧ d.all p ∧ mat rest b = some r := by
  simp only [mat] at h
  split at h
  · rename_i cs1 hrs
    obtain ⟨d4, rfl, hlen, hd4⟩ := repSplit_eq_some hrs
    obtain ⟨a, b, rfl, hall, hk⟩ := scanGreedy_eq_some h
    exact ⟨d4 ++ a, b, by simp, by simp [hlen], by simp [hd4, hall], hk⟩
  · exact absurd h (by simp)

/-- Evaluation of `afterStamp` on the canonical decomposition shape. -/
theorem afterStamp_canonical (w : List Char) (c : Char) (a : List Char)
    (c2 : Char) (a2 : List Char) (c3 : Char) (b : List Char)
    (hw : w.all isWS = true) (hc : isDigit c = true) (ha : a.all isDigit = true)
    (hc2 : isDigit c2 = true) (ha2 : a2.all isDigit = true)
    (hc3 : isWS c3 = true) :
    afterStamp (w ++ c :: (a ++ '.' :: c2 :: (a2 ++ c3 :: b))) = some b := by
  have hda : (c :: a).all isDigit = true := by simp [hc, ha]
  have hda2 : (c2 :: a2).all isDigit = true := by simp [hc2, ha2]
  have e1 : (w ++ c :: (a ++ '.' :: c2 :: (a2 ++ c3 :: b))).dropWhile isWS
      = c :: (a ++ '.' :: c2 :: (a2 ++ c3 :: b)) :=
    dropWhile_all_append isWS w c _ hw (digit_not_ws hc)
  have esh : c :: (a ++ '.' :: c2 :: (a2 ++ c3 :: b))
      = (c :: a) ++ '.' :: (c2 :: (a2 ++ c3 :: b)) := by simp
  have e2 : (c :: (a ++ '.' :: c2 :: (a2 ++ c3 :: b))).takeWhile isDigit
      = c :: a := by
    rw [esh]
    exact takeWhile_all_append isDigit (c :: a) '.' _ hda (by decide)
  have e3 : (c :: (a ++ '.' :: c2 :: (a2 ++ c3 :: b))).dropWhile isDigit
      = '.' :: (c2 :: (a2 ++ c3 :: b)) := by
    rw [esh]
    exact dropWhile_all_append isDigit (c :: a) '.' _ hda (by decide)
  have esh2 : c2 :: (a2 ++ c3 :: b) = (c2 :: a2) ++ c3 :: b := by simp
  have e4 : (c2 :: (a2 ++ c3 :: b)).takeWhile isDigit = c2 :: a2 := by
    rw [esh2]
    exact takeWhile_all_append isDigit (c2 :: a2) c3 _ hda2 (ws_not_digit hc3)
  have e5 : (c2 :: (a2 ++ c3 :: b)).dropWhile isDigit = c3 :: b := by
    rw [esh2]
    exact dropWhile_all_append isDigit (c2 :: a2) c3 _ hda2 (ws_not_digit hc3)
  rw [afterStamp]
  simp only [e1, e2, e3, e4, e5]
  simp [hc3]

/-- A successful match of the stamped patterns forces the prefix
decomposition computed by `afterStamp`. -/
theorem mat_stamp {rest : List Item} {cs : List Char} {r : Caps}
    (h : mat (stampItems ++ rest) cs = some r) :
    ∃ b, afterStamp cs = some b ∧ mat rest b = some r := by
  have h1 : scanGreedy isWS
      (mat (.plusG isDigit :: .lit ['.'] :: .plusG isDigit :: .cls isWS :: rest))
      cs = some r := h
  obtain ⟨w, b1, rfl, hwall, h2⟩ := scanGreedy_eq_some h1
  obtain ⟨c, a, b3, rfl, hdall, h4⟩ := mat_plusG_inv h2
  obtain ⟨b4, rfl, h5⟩ := mat_lit_inv h4
  obtain ⟨c2, a2, b6, rfl, hdall2, h6⟩ := mat_plusG_inv h5
  obtain ⟨c3, b7, rfl, hws3, h7⟩ := mat_cls_inv h6
  refine ⟨b7, ?_, h7⟩
  simp only [List.all_cons, Bool.and_eq_true] at hdall hdall2
  have key := afterStamp_canonical w c a c2 a2 c3 b7 hwall hdall.1 hdall.2
    hdall2.1 hdall2.2 hws3
  simpa using key

/-- A match of `RE_EVENT` forces the input to start with a nonempty digit
run followed by a dash, hence `afterStamp` fails on it. -/
theorem mat_reEvent_head {cs : List Char} {r : Caps}
    (h : mat reEvent cs = some r) :
    ∃ d b, cs = d ++ '-' :: b ∧ d ≠ [] ∧ d.all isDigit := by
  rw [reEvent] at h
  obtain ⟨d, b1, rfl, hlen, hd, hk⟩ := mat_repAtLeastG_inv h
  obtain ⟨b2, rfl, -⟩ := mat_lit_inv hk
  refine ⟨d, b2, rfl, ?_, hd⟩
  intro hcon
  rw [hcon] at hlen
  simp at hlen

/-- Evaluation of `afterStamp` on a digit-run-then-dash prefix: failure. -/
theorem afterStamp_dash_none (c : Char) (d : List Char) (b : List Char)
    (hc : isDigit c = true) (hd : d.all isDigit = true) :
    afterStamp (c :: (d ++ '-' :: b)) = none := by
  have e1 : (c :: (d ++ '-' :: b)).dropWhile isWS = c :: (d ++ '-' :: b) := by
    rw [List.dropWhile_cons, digit_not_ws hc]
    simp
  have esh : c :: (d ++ '-' :: b) = (c :: d) ++ '-' :: b := by simp
  have e2 : (c :: (d ++ '-' :: b)).takeWhile isDigit = c :: d := by
    rw [esh]
    exact takeWhile_all_append isDigit (c :: d) '-' b (by simp [hc, hd]) (by decide)
  have e3 : (c :: (d ++ '-' :: b)).dropWhile isDigit = '-' :: b := by
    rw [esh]
    exact dropWhile_all_append isDigit (c :: d) '-' b (by simp [hc, hd]) (by decide)
  rw [afterStamp]
  simp only [e1, e2, e3]
  simp

theorem reEvent_afterStamp_none {cs : List Char} {r : Caps}
    (h : mat reEvent cs = some r) : afterStamp cs = none := by
  obtain ⟨d, b, rfl, hne, hd⟩ := mat_reEvent_head h
  cases d with
  | nil => exact absurd rfl hne
  | cons c d' =>
    simp only [List.all_cons, Bool.and_eq_true] at hd
    have key := afterStamp_dash_none c d' b hd.1 hd.2
    simpa using key

/-! ## Pairwise disjointness of the three patterns -/

theorem reState_imp_reError_none {cs : List Char} {r : Caps}
    (h : mat reState cs = some r) : mat reError cs = none := by
  rcases hE : mat reError cs with - | r'
  · rfl
  · exfalso
    obtain ⟨b, hstamp, hrest⟩ := mat_stamp (show mat (stampItems ++ _) cs = some r from h)
    obtain ⟨b', hstamp', hrest'⟩ := mat_stamp (show mat (stampItems ++ _) cs = some r' from hE)
    rw [hstamp] at hstamp'
    injection hstamp' with hb
    subst hb
    obtain ⟨x, hx, -⟩ := mat_lit_inv hrest
    obtain ⟨y, hy, -⟩ := mat_lit_inv hrest'
    rw [hx] at hy
    simp at hy

theorem reEvent_imp_reError_none {cs : List Char} {r : Caps}
    (h : mat reEvent cs = some r) : mat reError cs = none := by
  rcases hE : mat reError cs with - | r'
  · rfl
  · exfalso
    obtain ⟨b', hstamp', -⟩ := mat_stamp (show mat (stampItems ++ _) cs = some r' from hE)
    rw [reEvent_afterStamp_none h] at hstamp'
    exact absurd hstamp' (by simp)

theorem reEvent_imp_reState_none {cs : List Char} {r : Caps}
    (h : mat reEvent cs = some r) : mat reState cs = none := by
  rcases hS : mat reState cs with - | r'
  · rfl
  · exfalso
    obtain ⟨b', hstamp', -⟩ := mat_stamp (show mat (stampItems ++ _) cs = some r' from hS)
    rw [reEvent_afterStamp_none h] at hstamp'
    exact absurd hstamp' (by simp)

theorem matchNewState_imp_error_none {cs y : List Char}
    (h : matchNewState cs = some y) : matchErrorMsg cs = none := by
  obtain ⟨caps, hm, -⟩ := Option.map_eq_some'.mp h
  simp [matchErrorMsg, reState_imp_reError_none hm]

theorem matchEvent_imp_error_none {cs : List Char} {em : List Char × List Char}
    (h : matchEvent cs = some em) : matchErrorMsg cs = none := by
  obtain ⟨caps, hm, -⟩ := Option.map_eq_some'.mp h
  simp [matchErrorMsg, reEvent_imp_reError_none hm]

theorem matchEvent_imp_state_none {cs : List Char} {em : List Char × List Char}
    (h : matchEvent cs = some em) : matchNewState cs = none := by
  obtain ⟨caps, hm, -⟩ := Option.map_eq_some'.mp h
  simp [matchNewState, reEvent_imp_reState_none hm]

/-! ## Control-loop lemmas -/

/-- Closed form of the bottom-of-iteration checks. -/
theorem loopChecks_spec (ls : LoopState) (outs : List FromServer) :
    loopChecks ls outs =
      if ls.startup_complete = false ∧ ls.st.state = RunningServerState.InGame
      then (outs ++ [.StartupComplete], .cont { ls with startup_complete := true })
      else if ls.st.state = RunningServerState.Closed then (outs, .brk ls)
      else (outs, .cont ls) := by
  rw [loopChecks]
  by_cases h1 : ls.startup_complete
  · simp [h1]
  · rw [Bool.not_eq_true] at h1
    by_cases h2 : ls.st.state = RunningServerState.InGame
    · simp [h1, h2]
    · simp [h1, h2]

/-! ## Claim theorems -/

/-- C2.  For every current snapshot `s` and every line whose `RE_STATE`
capture is `y`, if `y` is one of the twelve recognized state names (with
value `st`), applying the line sets the state to `st` — independent of the
`from(...)` part and of the current state, with no transition table
enforced (the player set is untouched as well). -/
theorem c2_state_transition_sets_state (s : RunningServer)
    (l y : List Char) (st : RunningServerState)
    (hm : matchNewState l = some y)
    (hy : RunningServerState.from_str y = some st) :
    s.new_line l = .ok { s with state := st } := by
  simp only [RunningServer.new_line, matchNewState_imp_error_none hm, hm, hy]

theorem c2_witness :
    RunningServer.new.new_line stateLineReady
      = .ok { RunningServer.new with state := RunningServerState.Ready } :=
  c2_state_transition_sets_state RunningServer.new stateLineReady
    "Ready".data RunningServerState.Ready (by decide) (by decide)

/-- C6.  Applying a line that matches the fatal-error shape with captured
message `m` returns the typed port-unavailable error and leaves the
snapshot unchanged when `m` is the recognized host-address-in-use message;
for any other captured message it panics (non-recoverable fault) instead of
returning a typed result.  Both hold for every snapshot. -/
theorem c6_fatal_error (s : RunningServer) (l m : List Char)
    (hm : matchErrorMsg l = some m) :
    (m = hostAddrInUse → s.new_line l = .err .PortUnavailable s) ∧
    (m ≠ hostAddrInUse → s.new_line l = .panicked (.unknownError m)) := by
  constructor
  · intro hcase
    simp only [RunningServer.new_line, hm]
    simp [hcase]
  · intro hcase
    simp only [RunningServer.new_line, hm]
    simp [hcase]

theorem c6_witness :
    RunningServer.new.new_line errorLine
      = .err .PortUnavailable RunningServer.new :=
  (c6_fatal_error RunningServer.new errorLine hostAddrInUse (by decide)).1 rfl

/-- Inversion for the error branch of `new_line`: the only way a typed
error comes back is the recognized fatal-error line, the error is
`PortUnavailable`, and the snapshot is untouched. -/
theorem new_line_err_inv {s : RunningServer} {l : List Char}
    {e : ServerError} {post : RunningServer}
    (h : s.new_line l = .err e post) :
    e = .PortUnavailable ∧ post = s ∧ matchErrorMsg l = some hostAddrInUse := by
  simp only [RunningServer.new_line] at h
  split at h
  · rename_i m hm
    split at h
    · rename_i hmsg
      injection h with h1 h2
      exact ⟨h1.symm, h2.symm, by rw [hm, hmsg]⟩
    · exact absurd h (by simp)
  · split at h
    · split at h
      · exact absurd h (by simp)
      · exact absurd h (by simp)
    · split at h
      · split at h
        · split at h
          · exact absurd h (by simp)
          · exact absurd h (by simp)
        · split at h
          · split at h
            · exact absurd h (by simp)
            · exact absurd h (by simp)
          · exact absurd h (by simp)
      · exact absurd h (by simp)

/-- One-step unfolding of `runLoop` on a cons cell. -/
theorem runLoop_cons (ls : LoopState) (e : Event) (es : List Event) :
    runLoop ls (e :: es) =
      match step ls e with
      | (outs, .cont ls') =>
        (outs ++ (runLoop ls' es).1, (runLoop ls' es).2)
      | (outs, .brk ls') => (outs, .done ls')
      | (outs, .fault err) => (outs, .fault err)
      | (outs, .panicked r) => (outs, .panicked r) := by
  rw [runLoop]

/-- A faulting iteration can only arise from the typed error of
`new_line`, i.e. from a line event carrying the recognized fatal-error
line. -/
theorem step_fault_inv {ls : LoopState} {ev : Event} {o : List FromServer}
    {e : ServerError} (h : step ls ev = (o, .fault e)) :
    ∃ l, ev = .line (some l) ∧ matchErrorMsg l = some hostAddrInUse := by
  cases ev with
  | cmd m =>
    cases m with
    | Shutdown => simp [step] at h
    | GetState =>
      rw [step, loopChecks_spec] at h
      split at h
      · exact absurd h (by simp)
      · split at h
        · exact absurd h (by simp)
        · exact absurd h (by simp)
  | line ol =>
    cases ol with
    | none => simp [step] at h
    | some l =>
      simp only [step] at h
      split at h
      · rw [loopChecks_spec] at h
        split at h
        · exact absurd h (by simp)
        · split at h
          · exact absurd h (by simp)
          · exact absurd h (by simp)
      · rename_i e1 post1 hnl
        exact ⟨l, rfl, (new_line_err_inv hnl).2.2⟩
      · exact absurd h (by simp)

/-- Total classification of `new_line`: every application returns success,
panics, or returns the port-unavailable error on the recognized fatal-error
line with the snapshot unchanged. -/
theorem new_line_classify (s : RunningServer) (l : List Char) :
    (∃ s', s.new_line l = .ok s') ∨ (∃ r, s.new_line l = .panicked r) ∨
      (s.new_line l = .err .PortUnavailable s ∧
        matchErrorMsg l = some hostAddrInUse) := by
  rcases hE : matchErrorMsg l with - | m
  · rcases hS : matchNewState l with - | ns
    · rcases hEv : matchEvent l with - | em
      · exact .inl ⟨s, by simp [RunningServer.new_line, hE, hS, hEv]⟩
      · obtain ⟨ev, m2⟩ := em
        by_cases hj : ev = "JOIN".data
        · rcases hft : firstToken m2 with - | t
          · exact .inr (.inl ⟨.noToken,
              by simp [RunningServer.new_line, hE, hS, hEv, hj, hft]⟩)
          · exact .inl ⟨{ s with players_online := insert t s.players_online },
              by simp [RunningServer.new_line, hE, hS, hEv, hj, hft]⟩
        · by_cases hl2 : ev = "LEAVE".data
          · rcases hft : firstToken m2 with - | t
            · exact .inr (.inl ⟨.noToken,
                by simp [RunningServer.new_line, hE, hS, hEv, hj, hl2, hft]⟩)
            · exact .inl ⟨{ s with players_online := s.players_online.erase t },
                by simp [RunningServer.new_line, hE, hS, hEv, hj, hl2, hft]⟩
          · exact .inl ⟨s,
              by simp [RunningServer.new_line, hE, hS, hEv, hj, hl2]⟩
    · rcases hfs : RunningServerState.from_str ns with - | st
      · exact .inr (.inl ⟨.unknownState ns,
          by simp [RunningServer.new_line, hE, hS, hfs]⟩)
      · exact .inl ⟨{ s with state := st },
          by simp [RunningServer.new_line, hE, hS, hfs]⟩
  · by_cases hm : m = hostAddrInUse
    · refine .inr (.inr ⟨by simp [RunningServer.new_line, hE, hm], ?_⟩)
      rw [hm]

    · exact .inr (.inl ⟨.unknownError m,
        by simp [RunningServer.new_line, hE, hm]⟩)

/-- C9.  The only error value `new_line` (and hence the control loop) can
return is the port-unavailable error, and it arises exactly from a line
matching the fatal-error shape with the recognized message, leaving the
snapshot unchanged; on every other line the operation returns success or
panics (aborts), never a typed error.  Hence a control-loop fault is
`PortUnavailable` and can only be caused by a recognized fatal-error
line among the processed events. -/
theorem c9_err_only_port_unavailable :
    (∀ (s : RunningServer) (l : List Char) (e : ServerError)
        (post : RunningServer),
      s.new_line l = .err e post →
        e = .PortUnavailable ∧ post = s ∧
          matchErrorMsg l = some hostAddrInUse) ∧
    (∀ (s : RunningServer) (l : List Char),
      matchErrorMsg l ≠ some hostAddrInUse →
        (∃ s', s.new_line l = .ok s') ∨ (∃ r, s.new_line l = .panicked r)) ∧
    (∀ (ls : LoopState) (es : List Event) (outs : List FromServer)
        (e : ServerError),
      runLoop ls es = (outs, .fault e) →
        e = .PortUnavailable ∧
          ∃ l, Event.line (some l) ∈ es ∧
            matchErrorMsg l = some hostAddrInUse) := by
  refine ⟨fun s l e post h => new_line_err_inv h, ?_, ?_⟩
  · intro s l hne
    rcases new_line_classify s l with h | h | h
    · exact .inl h
    · exact .inr h
    · exact absurd h.2 hne
  · intro ls es
    induction es generalizing ls with
    | nil =>
      intro outs e h
      rw [runLoop] at h
      exact absurd h (by simp)
    | cons ev rest ih =>
      intro outs e h
      rw [runLoop_cons] at h
      rcases hst : step ls ev with ⟨o1, sr⟩
      rw [hst] at h
      cases sr with
      | cont ls' =>
        simp only [Prod.mk.injEq] at h
        obtain ⟨h1, h2⟩ := h
        rcases hr : runLoop ls' rest with ⟨o2, r2⟩
        rw [hr] at h2
        have hr2 : r2 = .fault e := h2
        rw [hr2] at hr
        obtain ⟨he, l, hmem, hml⟩ := ih ls' o2 e hr
        exact ⟨he, l, List.mem_cons_of_mem ev hmem, hml⟩
      | brk ls' => exact absurd h (by simp)
      | fault e1 =>
        obtain ⟨l, hev, hml⟩ := step_fault_inv hst
        exact ⟨rfl, l, hev ▸ List.mem_cons_self _ _, hml⟩
      | panicked r => exact absurd h (by simp)

theorem c9_witness :
    RunningServer.new.new_line errorLine
      = .err ServerError.PortUnavailable RunningServer.new ∧
    matchErrorMsg errorLine = some hostAddrInUse :=
  ⟨by decide,
    (c9_err_only_port_unavailable.1 RunningServer.new errorLine
      .PortUnavailable RunningServer.new (by decide)).2.2⟩

/-- Behaviour of `new_line` on a line classified as a generic event. -/
theorem new_line_event {s : RunningServer} {l ev m : List Char}
    (hEv : matchEvent l = some (ev, m)) :
    s.new_line l =
      (if ev = "JOIN".data then
        match firstToken m with
        | some name =>
          .ok { s with players_online := insert name s.players_online }
        | none => .panicked .noToken
      else if ev = "LEAVE".data then
        match firstToken m with
        | some name =>
          .ok { s with players_online := s.players_online.erase name }
        | none => .panicked .noToken
      else .ok s) := by
  have hE := matchEvent_imp_error_none hEv
  have hS := matchEvent_imp_state_none hEv
  simp only [RunningServer.new_line, hE, hS, hEv]

/-- C7 (amended).  Provided the player is not already online before the
JOIN: applying a JOIN event line for `p` followed by a LEAVE event line for
`p` restores `players_online` to its prior value (in particular, from the
empty set back to empty); and applying a LEAVE line for an identifier not
in `players_online` is a no-op that returns success, not an error. -/
theorem c7_join_then_leave (s : RunningServer) (l1 l2 m1 m2 p : List Char)
    (h1 : matchEvent l1 = some ("JOIN".data, m1))
    (ht1 : firstToken m1 = some p)
    (h2 : matchEvent l2 = some ("LEAVE".data, m2))
    (ht2 : firstToken m2 = some p)
    (hp : p ∉ s.players_online) :
    (∃ s1, s.new_line l1 = .ok s1 ∧ s1.new_line l2 = .ok s) ∧
    s.new_line l2 = .ok s := by
  have hLJ : ¬("LEAVE".data = "JOIN".data) := by decide
  constructor
  · refine ⟨{ s with players_online := insert p s.players_online }, ?_, ?_⟩
    · rw [new_line_event h1, if_pos rfl, ht1]
    · rw [new_line_event h2, if_neg hLJ, if_pos rfl, ht2]
      simp [Finset.erase_insert hp]
  · rw [new_line_event h2, if_neg hLJ, if_pos rfl, ht2]
    simp [Finset.erase_eq_of_not_mem hp]

/-- C7 counterexample to the claim as stated: if the player is already
online before the JOIN, JOIN-then-LEAVE does not restore the prior player
set (it removes the player), so the unconditional claim is false. -/
theorem c7_counterexample :
    RunningServer.new_line ⟨.Start, {"Alice".data}⟩ joinLineAlice
      = .ok ⟨.Start, {"Alice".data}⟩ ∧
    RunningServer.new_line ⟨.Start, {"Alice".data}⟩ leaveLineAlice
      = .ok ⟨.Start, ∅⟩ ∧
    (⟨.Start, ∅⟩ : RunningServer) ≠ ⟨.Start, {"Alice".data}⟩ :=
  ⟨by decide, by decide, by decide⟩

theorem c7_witness :
    (∃ s1, RunningServer.new.new_line joinLineAlice = .ok s1 ∧
        s1.new_line leaveLineAlice = .ok RunningServer.new) ∧
    RunningServer.new.new_line leaveLineAlice = .ok RunningServer.new :=
  c7_join_then_leave RunningServer.new joinLineAlice leaveLineAlice
    "Alice".data "Alice".data "Alice".data (by decide) (by decide)
    (by decide) (by decide) (by decide)

/-- A message containing at least one non-whitespace character yields a
first token. -/
theorem firstToken_of_any {m : List Char}
    (h : m.any (fun c => !isWS c) = true) :
    ∃ t, firstToken m = some t := by
  cases hd : m.dropWhile isWS with
  | nil =>
    exfalso
    rw [List.dropWhile_eq_nil_iff] at hd
    rw [List.any_eq_true] at h
    obtain ⟨c, hc, hnc⟩ := h
    rw [hd c hc] at hnc
    simp at hnc
  | cons c cs =>
    exact ⟨(c :: cs).takeWhile (fun x => !isWS x), by rw [firstToken, hd]⟩

/-- C10 (amended).  For a line matching the generic-event shape, token
extraction succeeds — and `new_line` returns success rather than crashing —
whenever the message part contains at least one non-whitespace character.
(The regex guarantees the message is nonempty, but not that it contains a
non-whitespace character: a whitespace-only message panics, see the
counterexample.) -/
theorem c10_event_token_extraction (s : RunningServer) (l ev m : List Char)
    (hEv : matchEvent l = some (ev, m))
    (hm : m.any (fun c => !isWS c) = true) :
    ∃ s', s.new_line l = .ok s' := by
  obtain ⟨t, ht⟩ := firstToken_of_any hm
  rw [new_line_event hEv]
  by_cases hj : ev = "JOIN".data
  · rw [if_pos hj, ht]
    exact ⟨_, rfl⟩
  · rw [if_neg hj]
    by_cases hl2 : ev = "LEAVE".data
    · rw [if_pos hl2, ht]
      exact ⟨_, rfl⟩
    · rw [if_neg hl2]
      exact ⟨s, rfl⟩

/-- C10 counterexample to the claim as stated: a JOIN line whose message
part is a single space matches `RE_EVENT` (the `msg` group is `.+`, and a
space is a valid `.`), token extraction finds no token, and `new_line`
panics — the unwrap is reachable. -/
theorem c10_counterexample :
    matchEvent wsJoinLine = some ("JOIN".data, [' ']) ∧
    RunningServer.new.new_line wsJoinLine = .panicked .noToken :=
  ⟨by decide, by decide⟩

theorem c10_witness :
    ∃ s', RunningServer.new.new_line joinLineAlice = .ok s' :=
  c10_event_token_extraction RunningServer.new joinLineAlice
    "JOIN".data "Alice".data (by decide) (by decide)

/-! ## C1: the StartupComplete notification -/

/-- Unfolding of `observesInGame` on a cons cell. -/
theorem observesInGame_cons (ls : LoopState) (e : Event) (es : List Event) :
    observesInGame ls (e :: es) =
      match step ls e with
      | (_, .cont ls') =>
        if ls'.st.state = RunningServerState.InGame then true
        else observesInGame ls' es
      | _ => false := by
  rw [observesInGame]

/-- Bookkeeping of a continuing pass through `loopChecks`, given that the
messages sent earlier in the iteration contain no `StartupComplete`. -/
theorem loopChecks_cont_spec {ls1 : LoopState} {outs0 o : List FromServer}
    {ls' : LoopState} (h : loopChecks ls1 outs0 = (o, .cont ls'))
    (h0 : outs0.countP isSC = 0) :
    ls'.st = ls1.st ∧
    (ls'.startup_complete = true ↔
      (ls1.startup_complete = true ∨
        ls1.st.state = RunningServerState.InGame)) ∧
    o.countP isSC =
      (if ls1.startup_complete = false ∧
          ls1.st.state = RunningServerState.InGame
        then 1 else 0) ∧
    ls'.st.state ≠ RunningServerState.Closed := by
  rw [loopChecks_spec] at h
  split at h
  · rename_i hcond
    injection h with h1 h2
    injection h2 with h3
    subst h3
    rw [← h1]
    refine ⟨rfl, by simp [hcond.2], ?_, by simp [hcond.2]⟩
    simp [hcond.1, hcond.2, List.countP_append, h0, isSC]
  · split at h
    · exact absurd h (by simp)
    · rename_i hcond hcl
      injection h with h1 h2
      injection h2 with h3
      subst h3
      rw [← h1]
      refine ⟨rfl, ?_, ?_, hcl⟩
      · constructor
        · exact fun hf => .inl hf
        · rintro (hf | hg)
          · exact hf
          · rcases Bool.eq_false_or_eq_true ls1.startup_complete with hh | hh
            · exact hh
            · exact absurd ⟨hh, hg⟩ hcond
      · rw [if_neg hcond]
        exact h0

/-- Flag/output bookkeeping of a continuing iteration: the flag becomes set
exactly when it was set or the new state is `InGame`, `StartupComplete` is
emitted exactly on a fresh `InGame` observation, and a continuing state is
never `Closed`. -/
theorem step_cont_flag_count {ls : LoopState} {e : Event}
    {o : List FromServer} {ls' : LoopState}
    (h : step ls e = (o, .cont ls')) :
    (ls'.startup_complete = true ↔
      (ls.startup_complete = true ∨
        ls'.st.state = RunningServerState.InGame)) ∧
    o.countP isSC =
      (if ls.startup_complete = false ∧
          ls'.st.state = RunningServerState.InGame
        then 1 else 0) ∧
    ls'.st.state ≠ RunningServerState.Closed := by
  cases e with
  | cmd m =>
    cases m with
    | Shutdown =>
      rw [step] at h
      exact absurd h (by simp)
    | GetState =>
      rw [step] at h
      obtain ⟨hst, hiff, hcount, hcl⟩ := loopChecks_cont_spec h (by simp [isSC])
      rw [← hst] at hiff hcount
      exact ⟨hiff, hcount, hcl⟩
  | line ol =>
    cases ol with
    | none =>
      rw [step] at h
      exact absurd h (by simp)
    | some l =>
      simp only [step] at h
      split at h
      · rename_i s1 hnl
        obtain ⟨hst, hiff, hcount, hcl⟩ := loopChecks_cont_spec h (by simp)
        dsimp only at hst hiff hcount
        rw [← hst] at hiff hcount
        exact ⟨hiff, hcount, hcl⟩
      · exact absurd h (by simp)
      · exact absurd h (by simp)

/-- A non-continuing iteration never emits `StartupComplete`. -/
theorem step_noncont_count {ls : LoopState} {e : Event}
    {o : List FromServer} {sr : StepRes} (h : step ls e = (o, sr))
    (hnc : ∀ ls', sr ≠ .cont ls') : o.countP isSC = 0 := by
  cases e with
  | cmd m =>
    cases m with
    | Shutdown =>
      rw [step] at h
      injection h with h1 h2
      rw [← h1]
      rfl
    | GetState =>
      rw [step, loopChecks_spec] at h
      split at h
      · injection h with h1 h2
        exact absurd h2.symm (hnc _)
      · split at h
        · injection h with h1 h2
          rw [← h1]
          simp [isSC]
        · injection h with h1 h2
          exact absurd h2.symm (hnc _)
  | line ol =>
    cases ol with
    | none =>
      rw [step] at h
      injection h with h1 h2
      rw [← h1]
      rfl
    | some l =>
      simp only [step] at h
      split at h
      · rw [loopChecks_spec] at h
        split at h
        · injection h with h1 h2
          exact absurd h2.symm (hnc _)
        · split at h
          · injection h with h1 h2
            rw [← h1]
            rfl
          · injection h with h1 h2
            exact absurd h2.symm (hnc _)
      · injection h with h1 h2
        rw [← h1]
        rfl
      · injection h with h1 h2
        rw [← h1]
        rfl

/-- Master count of `StartupComplete` messages emitted by the control
loop: zero when the flag is already set, otherwise exactly one iff some
iteration observes the `InGame` state. -/
theorem runLoop_countSC (es : List Event) : ∀ ls : LoopState,
    ((runLoop ls es).1.countP isSC) =
      (if ls.startup_complete then 0
       else if observesInGame ls es then 1 else 0) := by
  induction es with
  | nil =>
    intro ls
    rw [runLoop]
    simp [observesInGame]
  | cons e es ih =>
    intro ls
    rw [runLoop_cons, observesInGame_cons]
    rcases hst : step ls e with ⟨o, sr⟩
    cases sr with
    | cont ls' =>
      rcases step_cont_flag_count hst with ⟨hflag, hcount, -⟩
      simp only [List.countP_append]
      rw [hcount, ih ls']
      by_cases h1 : ls.startup_complete = true
      · have hf : ls'.startup_complete = true := hflag.mpr (.inl h1)
        simp [h1, hf]
      · have h1' : ls.startup_complete = false := by simpa using h1
        by_cases h2 : ls'.st.state = RunningServerState.InGame
        · have hf : ls'.startup_complete = true := hflag.mpr (.inr h2)
          simp [h1', h2, hf]
        · have hf : ls'.startup_complete = false := by
            rcases Bool.eq_false_or_eq_true ls'.startup_complete with hh | hh
            · rcases hflag.mp hh with hc | hc
              · exact absurd hc h1
              · exact absurd hc h2
            · exact hh
          simp [h1', h2, hf]
    | brk ls' =>
      have hcount : o.countP isSC = 0 := step_noncont_count hst (by simp)
      simp [hcount]
    | fault e1 =>
      have hcount : o.countP isSC = 0 := step_noncont_count hst (by simp)
      simp [hcount]
    | panicked r =>
      have hcount : o.countP isSC = 0 := step_noncont_count hst (by simp)
      simp [hcount]

/-- C1.  Starting from the initial state of the control loop (fresh snapshot,
flag clear), the number of `StartupComplete` notifications sent over any
scheduled event sequence is exactly one if the check of some iteration observes
the `InGame` state, and zero otherwise — so it is sent at most once, namely
at the first transition into `InGame`, and never again even if `InGame` is
left (e.g. for `InGameSavingMap`) and re-entered. -/
theorem c1_startup_complete_exactly_once (es : List Event) :
    ((runLoop initLoop es).1.countP isSC) =
      (if observesInGame initLoop es then 1 else 0) := by
  have h := runLoop_countSC es initLoop
  simpa [initLoop] using h

/-- Concrete check of the re-entry scenario: InGame, then InGameSavingMap,
then InGame again emits `StartupComplete` exactly once (on the first
transition). -/
theorem runLoop_reentry_demo :
    (runLoop initLoop
      [.line (some stateLineInGame), .line (some stateLineSavingMap),
       .line (some stateLineInGameAgain)]).1 = [.StartupComplete] := by
  decide

/-! ## C3: Closed halts the loop -/

/-- Splitting `runLoop` along an append: once the loop has exited (any
result other than running out of scripted events), later events are never
applied. -/
theorem runLoop_append (es1 es2 : List Event) : ∀ ls : LoopState,
    runLoop ls (es1 ++ es2) =
      match runLoop ls es1 with
      | (o, .ranOut ls') =>
        (o ++ (runLoop ls' es2).1, (runLoop ls' es2).2)
      | (o, r) => (o, r) := by
  induction es1 with
  | nil => intro ls; rfl
  | cons e es1 ih =>
    intro ls
    rw [List.cons_append, runLoop_cons, runLoop_cons]
    rcases hst : step ls e with ⟨o, sr⟩
    cases sr with
    | cont ls' =>
      show (o ++ (runLoop ls' (es1 ++ es2)).1, (runLoop ls' (es1 ++ es2)).2) =
        match (o ++ (runLoop ls' es1).1, (runLoop ls' es1).2) with
        | (o2, .ranOut ls2) => (o2 ++ (runLoop ls2 es2).1, (runLoop ls2 es2).2)
        | (o2, r) => (o2, r)
      rw [ih ls']
      rcases hr : runLoop ls' es1 with ⟨o2, r2⟩
      cases r2 <;> simp [List.append_assoc]
    | brk ls' => rfl
    | fault e1 => rfl
    | panicked r => rfl

/-- C3.  A continuing iteration never leaves the state `Closed` (reaching
`Closed` exits the wait loop at once), and once the loop has exited,
appending further buffered events changes nothing: they are drained without
being processed. -/
theorem c3_closed_halts_processing (ls : LoopState) :
    (∀ (e : Event) (outs : List FromServer) (ls' : LoopState),
      step ls e = (outs, .cont ls') →
        ls'.st.state ≠ RunningServerState.Closed) ∧
    (∀ (es1 es2 : List Event),
      (runLoop ls es1).2.isRanOut = false →
        runLoop ls (es1 ++ es2) = runLoop ls es1) := by
  constructor
  · intro e outs ls' h
    exact (step_cont_flag_count h).2.2
  · intro es1 es2 hne
    rw [runLoop_append es1 es2 ls]
    rcases hr : runLoop ls es1 with ⟨o, r⟩
    rw [hr] at hne
    cases r with
    | done ls' => rfl
    | fault e => rfl
    | panicked r => rfl
    | ranOut ls' => exact absurd hne (by simp [RunResult.isRanOut])

theorem c3_witness :
    runLoop initLoop
        ([.line (some stateLineClosed)] ++ [.line (some joinLineAlice)])
      = runLoop initLoop [.line (some stateLineClosed)] :=
  (c3_closed_halts_processing initLoop).2
    [.line (some stateLineClosed)] [.line (some joinLineAlice)] (by decide)

/-! ## C4, C5, C8: the autoupdate poll loop and teardown -/

/-- One-step unfolding of `pollLoop` with the tuple projected out. -/
theorem pollLoop_cons {V : Type} (policy : AutoUpdate) (ob : PollObs V)
    (rest : List (PollObs V)) :
    pollLoop policy (ob :: rest) =
      if ob.sigint then ([], none, .interrupted)
      else
        match ob.update with
        | none => pollLoop policy rest
        | some v =>
          match policy with
          | .Forced => ([.Shutdown], some v, .restartDecided)
          | .Enabled =>
            if ob.snapshot.players_online = ∅ then
              ([.GetState, .Shutdown], some v, .restartDecided)
            else
              (.GetState :: (pollLoop policy rest).1,
                (pollLoop policy rest).2.1, (pollLoop policy rest).2.2)
          | _ => ([], none, .panicked) := by
  rw [pollLoop]

/-- Shutdown bookkeeping of the poll loop: a restart decision means
`Shutdown` was sent inside the loop; an interrupt exit means no `Shutdown`
was ever sent and no pending update was recorded. -/
theorem pollLoop_shutdown_spec {V : Type} (policy : AutoUpdate)
    (obs : List (PollObs V)) :
    ((pollLoop policy obs).2.2 = .restartDecided →
      ToServer.Shutdown ∈ (pollLoop policy obs).1) ∧
    ((pollLoop policy obs).2.2 = .interrupted →
      ToServer.Shutdown ∉ (pollLoop policy obs).1 ∧
      (pollLoop policy obs).2.1 = none) := by
  induction obs with
  | nil => simp [pollLoop]
  | cons ob rest ih =>
    rw [pollLoop_cons]
    by_cases hs : ob.sigint = true
    · simp [hs]
    · rcases hu : ob.update with - | v
      · simpa [hs, hu] using ih
      · cases policy with
        | Forced => simp [hs, hu]
        | Enabled =>
          by_cases hp : ob.snapshot.players_online = ∅
          · simp [hs, hu, hp]
          · simp only [hs, hu, hp, Bool.false_eq_true, if_false, if_neg]
            simp only [Bool.not_eq_true] at hs
            simp [hs, hp]
            constructor
            · intro hex
              exact ih.1 hex
            · intro hex
              exact ⟨(ih.2 hex).1, (ih.2 hex).2⟩
        | Startup => simp [hs, hu]
        | Disabled => simp [hs, hu]

/-- C4 (amended).  When the poll loop exits with a restart decision, the
`Shutdown` command has already been sent inside the loop; when it exits
because of an interrupt, no `Shutdown` is sent at all (the orchestrator
relies on the interrupt reaching the child via the OS).  In both cases the
orchestrator then joins the control loop and surfaces any fault it
returned; with no fault it returns the recorded pending version. -/
theorem c4_teardown_amended {V : Type} (policy : AutoUpdate)
    (obs : List (PollObs V)) (hl : policy.live = true) :
    ((pollLoop policy obs).2.2 = .restartDecided →
      ToServer.Shutdown ∈ (pollLoop policy obs).1) ∧
    ((pollLoop policy obs).2.2 = .interrupted →
      ToServer.Shutdown ∉ (pollLoop policy obs).1) ∧
    (∀ e : ServerError, (run_once policy obs (some e)).2 = .error e) ∧
    (run_once policy obs none).2 = .ok (pollLoop policy obs).2.1 := by
  refine ⟨(pollLoop_shutdown_spec policy obs).1,
    fun hi => ((pollLoop_shutdown_spec policy obs).2 hi).1, ?_, ?_⟩
  · intro e
    simp [run_once]
  · simp [run_once, hl]

/-- C4 counterexample to the claim as stated: on an interrupt exit the
orchestrator does **not** send `Shutdown` before joining — the command list
produced by `run_once` is empty even though the poll loop exited. -/
theorem c4_counterexample :
    (pollLoop (V := Nat) .Forced [⟨true, none, RunningServer.new⟩]).2.2
      = .interrupted ∧
    (run_once (V := Nat) .Forced [⟨true, none, RunningServer.new⟩] none).1
      = [] :=
  ⟨rfl, rfl⟩

theorem c4_witness :
    ToServer.Shutdown ∈
      (pollLoop (V := Nat) .Forced [⟨false, some 1, RunningServer.new⟩]).1 ∧
    (run_once (V := Nat) .Forced [⟨false, some 1, RunningServer.new⟩]
        (some .PortUnavailable)).2 = .error .PortUnavailable :=
  ⟨(c4_teardown_amended .Forced [⟨false, some 1, RunningServer.new⟩]
      (by decide)).1 (by decide),
    (c4_teardown_amended .Forced [⟨false, some 1, RunningServer.new⟩]
      (by decide)).2.2.1 .PortUnavailable⟩

/-- C5.  On an interval with an update available and no interrupt: under
`Forced` the loop sends `Shutdown` immediately and records the pending
version regardless of the player set; under `Enabled` it sends `GetState`
and then sends `Shutdown` and records the pending version only if the
player set of the snapshot is empty — otherwise it keeps looping with no
restart. -/
theorem c5_update_decision {V : Type} (v : V) (ob : PollObs V)
    (rest : List (PollObs V)) (hs : ob.sigint = false)
    (hu : ob.update = some v) :
    pollLoop .Forced (ob :: rest) = ([.Shutdown], some v, .restartDecided) ∧
    (ob.snapshot.players_online = ∅ →
      pollLoop .Enabled (ob :: rest)
        = ([.GetState, .Shutdown], some v, .restartDecided)) ∧
    (ob.snapshot.players_online ≠ ∅ →
      pollLoop .Enabled (ob :: rest)
        = (.GetState :: (pollLoop .Enabled rest).1,
            (pollLoop .Enabled rest).2.1,
            (pollLoop .Enabled rest).2.2)) := by
  refine ⟨?_, fun hp => ?_, fun hp => ?_⟩
  · rw [pollLoop_cons]
    simp [hs, hu]
  · rw [pollLoop_cons]
    simp [hs, hu, hp]
  · rw [pollLoop_cons]
    simp [hs, hu, hp]

theorem c5_witness :
    pollLoop (V := Nat) .Forced [⟨false, some 7, RunningServer.new⟩]
      = ([.Shutdown], some 7, .restartDecided) ∧
    pollLoop (V := Nat) .Enabled [⟨false, some 7, RunningServer.new⟩]
      = ([.GetState, .Shutdown], some 7, .restartDecided) ∧
    pollLoop (V := Nat) .Enabled
        [⟨false, some 7, ⟨.InGame, {"Alice".data}⟩⟩]
      = ([.GetState], none, .ranOut) := by
  refine ⟨(c5_update_decision (V := Nat) 7 ⟨false, some 7, RunningServer.new⟩
      [] rfl rfl).1,
    (c5_update_decision (V := Nat) 7 ⟨false, some 7, RunningServer.new⟩
      [] rfl rfl).2.1 (by decide), ?_⟩
  have h := (c5_update_decision (V := Nat) 7
      ⟨false, some 7, ⟨.InGame, {"Alice".data}⟩⟩ [] rfl rfl).2.2 (by decide)
  rw [h]
  rfl

/-- C8.  If the interrupt flag is observed during the poll-sleep loop, the
loop exits with no pending update recorded, `run_once` (joining a control
loop that returned no fault) returns no restart request, and the outer run
loop performs exactly one run with no update applied — a plain shutdown
rather than update-and-restart. -/
theorem c8_interrupt_plain_shutdown {V : Type} (policy : AutoUpdate)
    (obs : List (PollObs V))
    (script : List (List (PollObs V) × Option ServerError))
    (hl : policy.live = true)
    (hi : (pollLoop policy obs).2.2 = .interrupted) :
    (pollLoop policy obs).2.1 = none ∧
    (run_once policy obs none).2 = .ok none ∧
    server_run policy ((obs, none) :: script) = ([], .completed, 1) := by
  have hpend := ((pollLoop_shutdown_spec policy obs).2 hi).2
  refine ⟨hpend, ?_, ?_⟩
  · simp [run_once, hl, hpend]
  · rw [server_run]
    simp [run_once, hl, hpend]

theorem c8_witness :
    (pollLoop (V := Nat) .Enabled [⟨true, none, RunningServer.new⟩]).2.1
      = none ∧
    (run_once (V := Nat) .Enabled [⟨true, none, RunningServer.new⟩] none).2
      = .ok none ∧
    server_run (V := Nat) .Enabled [([⟨true, none, RunningServer.new⟩], none)]
      = ([], .completed, 1) :=
  c8_interrupt_plain_shutdown .Enabled [⟨true, none, RunningServer.new⟩] []
    (by decide) (by decide)

end Facts